import Mathlib

/-!
# Verification of the Stock-Scaner consolidation and filter pipeline

A shallow embedding of the core data model and operations of the
Stock-Scaner repository:

* quote records (`StockMap`): Python dicts mapping field names to numeric,
  string, or boolean values, embedded as association lists with
  first-occurrence lookup and in-place update (Python dict semantics);
* `FilterAgent._validate_real_stock_data`, `FilterAgent.filter_stocks`,
  `FilterAgent._assess_data_quality`, `FilterAgent._calculate_filter_score`,
  `FilterAgent.update_filter_criteria` (src/agents/filter_agent.py);
* `RobustNSEScraper._validate_real_stock_data` (src/data_sources/nse_client.py);
* the per-symbol merge resolution of `DataAgent._merge_duplicate_stocks`
  (src/agents/data_agent.py);
* the record-construction logic of `RobustNSEScraper._parse_quote_equity_data`
  (src/data_sources/nse_client.py) and
  `NSESproutsClient._parse_comprehensive_data`
  (src/data_sources/nse_sprouts_client.py), with the results of the network
  calls (historical range, F&O quote) passed in as parameters.

Python floats are embedded as rationals (`ℚ`); Python `round(x, 2)` is
embedded as exact decimal rounding with ties to even.  Numeric record fields
produced by the source clients are numbers; `float()` applied to a
non-numeric value and comparisons between strings and numbers are modelled
as the exception path they trigger in Python (the record is skipped or the
enclosing `try` returns its failure value).
-/

/-- A Python dict value as it occurs in a quote record: a number (int and
float are both embedded as `ℚ`), a string, or a boolean.  `isinstance(b, int)`
is `True` for Python booleans, which the embedding tracks separately. -/
inductive Value where
  | num (q : ℚ)
  | str (s : String)
  | boolv (b : Bool)
deriving DecidableEq, Repr

/-- A quote record: a Python dict embedded as an association list.
Python dicts have unique keys; theorems that need this assume
`Nodup` of the key list. -/
abbrev StockMap := List (String × Value)

/-- `dict.get k` / `dict[k]`: first-occurrence lookup. -/
def mapGet : StockMap → String → Option Value
  | [], _ => none
  | (k, v) :: rest, key => if k = key then some v else mapGet rest key

/-- `dict.get(k, d)`: lookup with default. -/
def mapGetD (m : StockMap) (key : String) (d : Value) : Value :=
  (mapGet m key).getD d

/-- `dict[k] = v`: replace the (unique) binding in place, else append. -/
def mapSet : StockMap → String → Value → StockMap
  | [], key, v => [(key, v)]
  | (k, w) :: rest, key, v =>
      if k = key then (k, v) :: rest else (k, w) :: mapSet rest key v

/-- `dict.update(kvs)`: a sequence of `dict[k] = v` assignments. -/
def mapUpdate (m : StockMap) (kvs : List (String × Value)) : StockMap :=
  kvs.foldl (fun acc kv => mapSet acc kv.1 kv.2) m

/-- Python truthiness of a record value (`bool(v)`). -/
def pyTruthy : Value → Bool
  | .num q => decide (q ≠ 0)
  | .str s => decide (s ≠ "")
  | .boolv b => b

/-- Python truthiness of an optional value (`dict.get` returns `None` for a
missing key, and `None` is falsy). -/
def pyTruthyOpt : Option Value → Bool
  | none => false
  | some v => pyTruthy v

/-- `isinstance(v, (int, float))`; `True` for Python booleans as well. -/
def isNumType : Value → Bool
  | .num _ => true
  | .boolv _ => true
  | .str _ => false

/-- The numeric value used when Python compares or converts a number; a
boolean is its 0/1 value.  The string case is only reached on paths where
Python raises (and the caller's `except` path is taken); it is mapped to `0`,
which on every use site below produces the same outcome as the exception. -/
def numVal : Value → ℚ
  | .num q => q
  | .boolv b => if b then 1 else 0
  | .str _ => 0

/-- `float(v)` for a record value: numbers and booleans convert, any other
value raises (modelled as `none`; the numeric fields produced by the source
clients are numbers, so string-encoded numbers are not modelled). -/
def pyFloat : Value → Option ℚ
  | .num q => some q
  | .boolv b => some (if b then 1 else 0)
  | .str _ => none

/-- `int(x)` on a rational: truncation toward zero. -/
def pyTrunc (q : ℚ) : ℤ :=
  if 0 ≤ q then Rat.floor q else Rat.ceil q

/-- `int(v)` for a record value (same raising behaviour as `pyFloat`). -/
def pyInt : Value → Option ℤ
  | .num q => some (pyTrunc q)
  | .boolv b => some (if b then 1 else 0)
  | .str _ => none

/-- A numeric read used directly in a comparison (`stock.get(k, 0) > c`):
numbers and booleans compare, a string raises (`none`). -/
def numOpt : Value → Option ℚ
  | .num q => some q
  | .boolv b => some (if b then 1 else 0)
  | .str _ => none

/-- Rounding to the nearest integer with ties to even (Python `round`). -/
def roundHalfEven (q : ℚ) : ℤ :=
  let f := Rat.floor q
  let r := q - f
  if r < Rat.divInt 1 2 then f
  else if Rat.divInt 1 2 < r then f + 1
  else if f % 2 = 0 then f else f + 1

/-- `round(x, 2)` on the exact rational value. -/
def pyRound2 (q : ℚ) : ℚ :=
  Rat.divInt (roundHalfEven (q * 100)) 100

/-- `pat in hay` starting-position test: `pat` is a prefix of `hay`. -/
def startsWithList : List Char → List Char → Bool
  | _, [] => true
  | [], _ :: _ => false
  | c :: cs, p :: ps => (c = p) && startsWithList cs ps

/-- `pat in hay` over character lists: contiguous substring test. -/
def hasSubList : List Char → List Char → Bool
  | [], pat => startsWithList [] pat
  | c :: cs, pat => startsWithList (c :: cs) pat || hasSubList cs pat

/-- Python `pat in hay` for strings. -/
def strContains (hay pat : String) : Bool :=
  hasSubList hay.toList pat.toList

/-- Python `s.lower()` (the source tags are ASCII). -/
def strLower (s : String) : String :=
  ⟨s.data.map Char.toLower⟩

/-- Helper for `strSplitComma`: accumulate the current chunk (reversed). -/
def splitCommaAux : List Char → List Char → List String
  | [], acc => [⟨acc.reverse⟩]
  | c :: cs, acc =>
      if c = ',' then ⟨acc.reverse⟩ :: splitCommaAux cs []
      else splitCommaAux cs (c :: acc)

/-- Python `s.split(',')`. -/
def strSplitComma (s : String) : List String :=
  splitCommaAux s.data []

/-- Python `min(a, b)` on numbers. -/
def pyMin (a b : ℚ) : ℚ :=
  if a ≤ b then a else b

/-- Python `abs(x)` on numbers. -/
def pyAbs (q : ℚ) : ℚ :=
  if q < 0 then -q else q

theorem pyMin_eq_min (a b : ℚ) : pyMin a b = min a b := by
  unfold pyMin
  rw [min_def]

/-- Division of rationals, written through `Rat.divInt` so that it is
reducible on concrete inputs (`Rat.inv` is `@[irreducible]`); provably equal
to `a / b` (`pyDiv_eq_div`).  Division by zero never occurs on a reachable
path of the embedded code (Python would raise `ZeroDivisionError`; every
division below is guarded by a positivity test). -/
def pyDiv (a b : ℚ) : ℚ :=
  Rat.divInt (a.num * b.den) (a.den * b.num)

theorem pyDiv_eq_div (a b : ℚ) : pyDiv a b = a / b := by
  unfold pyDiv
  rw [← Rat.divInt_div_divInt, Rat.num_divInt_den, Rat.num_divInt_den]

theorem pyAbs_eq_abs (q : ℚ) : pyAbs q = |q| := by
  unfold pyAbs
  rcases lt_or_le q 0 with h | h
  · rw [if_pos h, abs_of_neg h]
  · rw [if_neg (not_lt.2 h), abs_of_nonneg h]

/-- `FilterAgent._validate_real_stock_data` required-field check: the value
must satisfy `isinstance(value, (int, float))` and `value > 0`.  Note the
code applies this check to `symbol` as well, so a record whose symbol is a
string never validates. -/
def isPositiveNumber : Value → Bool
  | .num q => decide (0 < q)
  | .boolv b => b
  | .str _ => false

/-- `FilterAgent._validate_real_stock_data` (src/agents/filter_agent.py):
required fields present, numeric and positive; source tag free of
synthetic/fake/generated markers (a non-string source raises on `.lower()`
and the `except` path returns `False`); `ltp` and `prev_close` in
`[5, 100000]`; day-over-day ratio `ltp / prev_close` in `[0.3, 3.0]`. -/
def validate_real_stock_data (stock : StockMap) : Bool :=
  (["symbol", "open_price", "ltp", "prev_close"].all
      (fun f => isPositiveNumber (mapGetD stock f (.num 0)))) &&
  (match mapGetD stock "source" (.str "") with
   | .str src =>
       let s := strLower src
       !(strContains s "synthetic" || strContains s "fake" ||
         strContains s "generated")
   | _ => false) &&
  (let ltp := numVal (mapGetD stock "ltp" (.num 0))
   let prev_close := numVal (mapGetD stock "prev_close" (.num 0))
   decide (5 ≤ ltp ∧ ltp ≤ 100000) &&
   decide (5 ≤ prev_close ∧ prev_close ≤ 100000) &&
   (if 0 < prev_close then
      decide (Rat.divInt 3 10 ≤ pyDiv ltp prev_close ∧
              pyDiv ltp prev_close ≤ 3)
    else true))

/-- `RobustNSEScraper._validate_real_stock_data`
(src/data_sources/nse_client.py): required fields `symbol, ltp, prev_close`
numeric and positive; `ltp` in `[1, 100000]`; day-over-day change
`|(ltp - prev_close) / prev_close|` at most `0.5`. -/
def nse_validate_real_stock_data (stock : StockMap) : Bool :=
  (["symbol", "ltp", "prev_close"].all
      (fun f => isPositiveNumber (mapGetD stock f (.num 0)))) &&
  (let ltp := numVal (mapGetD stock "ltp" (.num 0))
   let prev_close := numVal (mapGetD stock "prev_close" (.num 0))
   decide (1 ≤ ltp ∧ ltp ≤ 100000) &&
   (if 0 < prev_close then
      decide (pyAbs (pyDiv (ltp - prev_close) prev_close) ≤ Rat.divInt 1 2)
    else true))

/-- `FilterAgent._assess_data_quality`: additive quality score from source
markers and field completeness, bucketed into labels; any comparison that
raises (non-numeric field, non-string source) takes the `except` path and
returns `"UNKNOWN"`. -/
def assess_data_quality (stock : StockMap) : String :=
  match mapGetD stock "source" (.str "") with
  | .str src =>
      let s := strLower src
      match numOpt (mapGetD stock "prev_day_high" (.num 0)),
            numOpt (mapGetD stock "volume" (.num 0)),
            numOpt (mapGetD stock "total_oi" (.num 0)) with
      | some pdh, some vol, some oi =>
          let q : ℤ :=
            (if strContains s "nse" then 3
             else if strContains s "yfinance" then 2 else 1) +
            (if 0 < pdh then 2 else 0) +
            (if 1000 < vol then 1 else 0) +
            (if 0 < oi then 2 else 0) +
            (if strContains s "real" then 2 else 0)
          if 8 ≤ q then "EXCELLENT"
          else if 6 ≤ q then "GOOD"
          else if 4 ≤ q then "FAIR"
          else "POOR"
      | _, _, _ => "UNKNOWN"
  | _ => "UNKNOWN"

/-- `FilterAgent._calculate_filter_score`: capped gap and momentum terms,
stepped volume points, flat OI bonus, rounded to two decimals; any raising
comparison takes the `except` path and yields `0.0`. -/
def calculate_filter_score (stock : StockMap) (gap_up_pct change_pct : ℚ) : ℚ :=
  match numOpt (mapGetD stock "volume" (.num 0)),
        numOpt (mapGetD stock "total_oi" (.num 0)) with
  | some vol, some oi =>
      let volScore : ℚ :=
        if 100000 < vol then 10
        else if 50000 < vol then 7
        else if 10000 < vol then 5
        else if 1000 < vol then 2
        else 0
      let oiScore : ℚ := if 0 < oi then 10 else 0
      pyRound2 (pyMin (gap_up_pct * 2) 40 + pyMin (change_pct * 2) 40 +
                volScore + oiScore)
  | _, _ => 0

/-- The body of the per-stock loop of `FilterAgent.filter_stocks`
(src/agents/filter_agent.py lines 40-144), applied to one already-validated
record: extract the numeric fields (`float`/`int` conversions; a raising
conversion skips the record), substitute `prev_close` for a non-positive
`prev_day_high` (skipping the record if both are non-positive), evaluate the
six gate conditions, and on success return the input record copied and
updated with the nine derived fields.  `ts` stands for the wall-clock string
`_get_current_timestamp` returns. -/
def processStock (minPct : ℚ) (ts : String) (stock : StockMap) :
    Option StockMap :=
  match pyFloat (mapGetD stock "open_price" (.num 0)),
        pyFloat (mapGetD stock "ltp" (.num 0)),
        pyFloat (mapGetD stock "prev_close" (.num 0)),
        pyFloat (mapGetD stock "prev_day_high" (.num 0)),
        pyInt (mapGetD stock "volume" (.num 0)) with
  | some open_price, some ltp, some prev_close, some pdh0, some volume =>
      if pdh0 ≤ 0 ∧ ¬ 0 < prev_close then none
      else
        let prev_day_high := if pdh0 ≤ 0 then prev_close else pdh0
        let gap_up_percentage :=
          if 0 < prev_day_high then
            pyDiv (open_price - prev_day_high) prev_day_high * 100
          else 0
        if ¬ 0 < prev_close then none
        else
          let percentage_change := pyDiv (ltp - prev_close) prev_close * 100
          if prev_day_high < open_price ∧
             minPct ≤ percentage_change ∧
             1000 < volume ∧
             (10 ≤ ltp ∧ ltp ≤ 50000) ∧
             (Rat.divInt 1 10 ≤ gap_up_percentage ∧ gap_up_percentage ≤ 25) ∧
             (-50 ≤ percentage_change ∧ percentage_change ≤ 100) then
            let day_change := ltp - open_price
            let day_change_pct :=
              if 0 < open_price then pyDiv (ltp - open_price) open_price * 100
              else 0
            some (mapUpdate stock [
              ("percentage_change", .num (pyRound2 percentage_change)),
              ("gap_up_percentage", .num (pyRound2 gap_up_percentage)),
              ("day_change", .num (pyRound2 day_change)),
              ("day_change_percentage", .num (pyRound2 day_change_pct)),
              ("gap_up_condition", .boolv (decide (prev_day_high < open_price))),
              ("momentum_condition", .boolv (decide (minPct ≤ percentage_change))),
              ("filter_timestamp", .str ts),
              ("data_quality", .str (assess_data_quality stock)),
              ("filter_score",
                .num (calculate_filter_score stock gap_up_percentage
                        percentage_change))])
          else none
  | _, _, _, _, _ => none

/-- `FilterAgent.filter_stocks`: validate every record, then run the gate
loop over the validated ones. -/
def filter_stocks (minPct : ℚ) (ts : String) (stock_data : List StockMap) :
    List StockMap :=
  (stock_data.filter validate_real_stock_data).filterMap (processStock minPct ts)

/-- The configuration state a `FilterAgent` instance carries.  The
`volume_threshold` attribute exists only after `update_filter_criteria` has
run (`__init__` does not set it), hence the `Option`. -/
structure FilterAgentState where
  min_percentage_increase : ℚ
  volume_threshold : Option ℤ
deriving DecidableEq, Repr

/-- `FilterAgent.update_filter_criteria`: each argument is stored unless the
caller explicitly passes `None`. -/
def update_filter_criteria (s : FilterAgentState)
    (min_percentage : Option ℚ) (volume_threshold : Option ℤ) :
    FilterAgentState :=
  let s1 := match min_percentage with
    | some m => { s with min_percentage_increase := m }
    | none => s
  match volume_threshold with
  | some v => { s1 with volume_threshold := some v }
  | none => s1

/-- `FilterAgent.filter_stocks` as invoked on an agent instance: the only
piece of agent state it reads is `min_percentage_increase`. -/
def filter_stocks_state (s : FilterAgentState) (ts : String)
    (stock_data : List StockMap) : List StockMap :=
  filter_stocks s.min_percentage_increase ts stock_data

/-- One iteration of the `for key, value in stock.items()` loop in the
duplicate branch of `DataAgent._merge_duplicate_stocks`
(src/agents/data_agent.py lines 141-153), updating the record held for the
symbol with one field of the incoming record.  `none` marks the raising
path (`.split` on a non-string existing source; the stringification of a
non-string incoming source tag is likewise out of the modelled value space)
— `DataAgent._merge_duplicate_stocks` has no `try`, so that exception
propagates. -/
def mergeStep (m : StockMap) (kv : String × Value) : Option StockMap :=
  if kv.1 = "source" then
    match mapGetD m "source" (.str ""), kv.2 with
    | .str s, .str v =>
        some (if v ∈ strSplitComma s then m
              else mapSet m "source" (.str (s ++ "," ++ v)))
    | _, _ => none
  else if isNumType kv.2 && numVal kv.2 ≠ 0 then
    -- the guarded assignment `if existing.get(key, 0) == 0 or value != 0`
    -- always fires here, since `value != 0` holds on this branch
    some (mapSet m kv.1 kv.2)
  else if !(pyTruthyOpt (mapGet m kv.1)) && pyTruthy kv.2 then
    some (mapSet m kv.1 kv.2)
  else
    some m

/-- The per-symbol merge resolution of `DataAgent._merge_duplicate_stocks`:
the record already held (`existing`) updated field by field from the
incoming record for the same symbol. -/
def merge_duplicate_pair (existing incoming : StockMap) : Option StockMap :=
  incoming.foldl (fun acc kv => acc.bind (fun m => mergeStep m kv)) (some existing)

/-- Previous-trading-day OHLC as returned by a successful
`_get_historical_data_robust` call (src/data_sources/nse_client.py lines
500-532); the failing call returns `{}`, modelled as `none` at the use
sites. -/
structure HistOHLC where
  prev_day_high : ℚ
  prev_day_open : ℚ
  prev_day_low : ℚ
  prev_day_close : ℚ
deriving DecidableEq, Repr

/-- `RobustNSEScraper._parse_quote_equity_data` (src/data_sources/
nse_client.py lines 346-394) after the numeric fields of the payload have
been read: builds the quote record, filling the previous-day fields from the
historical call when it succeeded and substituting `prev_close` for each of
them when it failed, then overlaying the F&O open-interest fields when that
call succeeded.  The `source` tag is the literal `"nse_quote_equity_real"`
on every path. -/
def parse_quote_equity_data (symbol : String)
    (ltp open_price prev_close day_high day_low : ℚ) (volume : ℤ)
    (hist : Option HistOHLC) (fo : Option (ℤ × ℤ)) : StockMap :=
  let base : StockMap := [
    ("symbol", .str symbol),
    ("ltp", .num ltp),
    ("open_price", .num open_price),
    ("high_price", .num day_high),
    ("low_price", .num day_low),
    ("prev_close", .num prev_close),
    ("prev_day_high", .num (match hist with
      | some h => h.prev_day_high
      | none => prev_close)),
    ("prev_day_open", .num (match hist with
      | some h => h.prev_day_open
      | none => prev_close)),
    ("prev_day_low", .num (match hist with
      | some h => h.prev_day_low
      | none => prev_close)),
    ("volume", .num (volume : ℚ)),
    ("change_in_oi", .num 0),
    ("total_oi", .num 0),
    ("source", .str "nse_quote_equity_real")]
  match fo with
  | some (oi, change_oi) =>
      mapUpdate base [("total_oi", .num (oi : ℚ)),
                      ("change_in_oi", .num (change_oi : ℚ))]
  | none => base

/-- The first branch of `NSESproutsClient._parse_comprehensive_data`
(src/data_sources/nse_sprouts_client.py lines 87-110) together with the
optional `_get_enhanced_stock_data` overlay applied by the caller: the
previous-day OHLC fields start as fixed-ratio estimates from `prevClose`
(`×1.01`, `×0.995`, `×0.985`) and are overwritten only when the historical
call succeeded.  The `source` tag is the literal
`"nse_preopen_comprehensive"` on every path. -/
def parse_comprehensive_data (symbol : String)
    (lastPrice prevClose dayHigh dayLow perChange : ℚ) (volume : ℤ)
    (hist : Option HistOHLC) : StockMap :=
  let base : StockMap := [
    ("symbol", .str symbol),
    ("open_price", .num lastPrice),
    ("ltp", .num lastPrice),
    ("prev_close", .num prevClose),
    ("high_price", .num dayHigh),
    ("low_price", .num dayLow),
    ("prev_day_high", .num (prevClose * Rat.divInt 101 100)),
    ("prev_day_open", .num (prevClose * Rat.divInt 995 1000)),
    ("prev_day_low", .num (prevClose * Rat.divInt 985 1000)),
    ("volume", .num (volume : ℚ)),
    ("percentage_change", .num perChange),
    ("change_in_oi", .num 0),
    ("total_oi", .num 0),
    ("source", .str "nse_preopen_comprehensive")]
  match hist with
  | some h =>
      mapUpdate base [("prev_day_high", .num h.prev_day_high),
                      ("prev_day_open", .num h.prev_day_open),
                      ("prev_day_low", .num h.prev_day_low),
                      ("prev_day_close", .num h.prev_day_close)]
  | none => base

theorem mapGet_mapSet_self (m : StockMap) (k : String) (v : Value) :
    mapGet (mapSet m k v) k = some v := by
  induction m with
  | nil => simp [mapSet, mapGet]
  | cons hd tl ih =>
    obtain ⟨k', w⟩ := hd
    by_cases h : k' = k
    · simp [mapSet, h, mapGet]
    · simp [mapSet, h, mapGet, ih]

theorem mapGet_mapSet_ne (m : StockMap) (k k' : String) (v : Value)
    (h : k' ≠ k) : mapGet (mapSet m k v) k' = mapGet m k' := by
  have h' : ¬ k = k' := fun hh => h hh.symm
  induction m with
  | nil => simp [mapSet, mapGet, h']
  | cons hd tl ih =>
    obtain ⟨k'', w⟩ := hd
    by_cases hk : k'' = k
    · subst hk
      simp [mapSet, mapGet, h']
    · simp [mapSet, hk, mapGet, ih]

theorem mapSet_eq_self (m : StockMap) (k : String) (v : Value)
    (h : mapGet m k = some v) : mapSet m k v = m := by
  induction m with
  | nil => simp [mapGet] at h
  | cons hd tl ih =>
    obtain ⟨k', w⟩ := hd
    by_cases hk : k' = k
    · simp [mapGet, hk] at h
      simp [mapSet, hk, h]
    · simp [mapGet, hk] at h
      simp [mapSet, hk, ih h]

theorem mapGet_eq_of_mem_nodup (m : StockMap) (k : String) (v : Value)
    (hn : (m.map Prod.fst).Nodup) (hm : (k, v) ∈ m) :
    mapGet m k = some v := by
  induction m with
  | nil => simp at hm
  | cons hd tl ih =>
    obtain ⟨k', w⟩ := hd
    rcases List.mem_cons.1 hm with heq | htl
    · obtain ⟨h1, h2⟩ := Prod.mk.injEq .. ▸ heq.symm
      simp [mapGet, h1.symm, h2]
    · by_cases hk : k' = k
      · exfalso
        subst hk
        have : k' ∈ tl.map Prod.fst := List.mem_map.2 ⟨(k', v), htl, rfl⟩
        exact (List.nodup_cons.1 hn).1 this
      · simpa [mapGet, hk] using ih (List.nodup_cons.1 hn).2 htl

theorem mergeFold_none (l : List (String × Value)) :
    l.foldl (fun acc kv => acc.bind (fun m => mergeStep m kv)) none = none := by
  induction l with
  | nil => rfl
  | cons hd tl ih => simpa using ih

theorem merge_duplicate_pair_append (e : StockMap)
    (l₁ l₂ : List (String × Value)) :
    merge_duplicate_pair e (l₁ ++ l₂) =
      (merge_duplicate_pair e l₁).bind (fun m => merge_duplicate_pair m l₂) := by
  unfold merge_duplicate_pair
  rw [List.foldl_append]
  cases h : List.foldl (fun acc kv => acc.bind (fun m => mergeStep m kv))
      (some e) l₁ with
  | none => simp [mergeFold_none]
  | some m => simp

theorem mergeStep_get_ne (m m' : StockMap) (kv : String × Value) (k : String)
    (hs : mergeStep m kv = some m') (hk : k ≠ kv.1) :
    mapGet m' k = mapGet m k := by
  obtain ⟨k₀, v₀⟩ := kv
  simp only at hk
  unfold mergeStep at hs
  by_cases hsrc : k₀ = "source"
  · subst hsrc
    rw [if_pos rfl] at hs
    cases hget : mapGetD m "source" (.str "") with
    | num q => rw [hget] at hs; cases v₀ <;> simp at hs
    | boolv b => rw [hget] at hs; cases v₀ <;> simp at hs
    | str s =>
      rw [hget] at hs
      cases v₀ with
      | num q => simp at hs
      | boolv b => simp at hs
      | str v =>
        simp only [Option.some.injEq] at hs
        subst hs
        by_cases hmem : v ∈ strSplitComma s
        · simp [hmem]
        · simp [hmem, mapGet_mapSet_ne _ _ _ _ hk]
  · simp only [if_neg hsrc] at hs
    by_cases h1 : isNumType v₀ && decide (numVal v₀ ≠ 0)
    · rw [if_pos h1] at hs
      obtain rfl := Option.some.injEq .. ▸ hs
      exact mapGet_mapSet_ne _ _ _ _ hk
    · rw [if_neg h1] at hs
      by_cases h2 : !(pyTruthyOpt (mapGet m k₀)) && pyTruthy v₀
      · rw [if_pos h2] at hs
        obtain rfl := Option.some.injEq .. ▸ hs
        exact mapGet_mapSet_ne _ _ _ _ hk
      · rw [if_neg h2] at hs
        obtain rfl := Option.some.injEq .. ▸ hs
        rfl

theorem mergeFold_preserve (e m : StockMap) (n : List (String × Value))
    (k : String) (hk : ∀ kv ∈ n, k ≠ kv.1)
    (hm : merge_duplicate_pair e n = some m) :
    mapGet m k = mapGet e k := by
  induction n generalizing e with
  | nil =>
    obtain rfl := Option.some.injEq .. ▸ hm
    rfl
  | cons hd tl ih =>
    unfold merge_duplicate_pair at hm
    rw [List.foldl_cons] at hm
    simp only [Option.some_bind] at hm
    cases hstep : mergeStep e hd with
    | none =>
      rw [hstep] at hm
      rw [mergeFold_none] at hm
      exact absurd hm (by simp)
    | some e' =>
      rw [hstep] at hm
      have h1 : mapGet m k = mapGet e' k :=
        ih e' (fun kv hkv => hk kv (List.mem_cons_of_mem _ hkv)) hm
      have h2 : mapGet e' k = mapGet e k :=
        mergeStep_get_ne e e' hd k hstep (hk hd (List.mem_cons_self _ _))
      rw [h1, h2]

theorem merge_lookup (e n m : StockMap) (k : String) (v : Value)
    (hn : (n.map Prod.fst).Nodup) (hv : (k, v) ∈ n)
    (hm : merge_duplicate_pair e n = some m) :
    ∃ e₁ m₂, mapGet e₁ k = mapGet e k ∧ mergeStep e₁ (k, v) = some m₂ ∧
      mapGet m k = mapGet m₂ k := by
  obtain ⟨s, t, rfl⟩ := List.append_of_mem hv
  have hmid : (k :: ((s.map Prod.fst) ++ (t.map Prod.fst))).Nodup := by
    have := hn
    simpa [List.nodup_middle] using this
  have hks : ∀ kv ∈ s, k ≠ kv.1 := by
    intro kv hkv heq
    exact (List.nodup_cons.1 hmid).1
      (List.mem_append.2 (Or.inl (List.mem_map.2 ⟨kv, hkv, heq.symm⟩)))
  have hkt : ∀ kv ∈ t, k ≠ kv.1 := by
    intro kv hkv heq
    exact (List.nodup_cons.1 hmid).1
      (List.mem_append.2 (Or.inr (List.mem_map.2 ⟨kv, hkv, heq.symm⟩)))
  rw [merge_duplicate_pair_append] at hm
  cases h1 : merge_duplicate_pair e s with
  | none => rw [h1] at hm; exact absurd hm (by simp)
  | some e₁ =>
    rw [h1] at hm
    simp only [Option.some_bind] at hm
    unfold merge_duplicate_pair at hm
    rw [List.foldl_cons] at hm
    simp only [Option.some_bind] at hm
    cases h2 : mergeStep e₁ (k, v) with
    | none =>
      rw [h2] at hm
      rw [mergeFold_none] at hm
      exact absurd hm (by simp)
    | some m₂ =>
      rw [h2] at hm
      refine ⟨e₁, m₂, mergeFold_preserve e e₁ s k hks h1, h2, ?_⟩
      exact mergeFold_preserve m₂ m t k hkt hm

theorem numVal_of_pyFloat (v : Value) (q : ℚ) (h : pyFloat v = some q) :
    numVal v = q := by
  cases v with
  | num q' => simpa [pyFloat, numVal] using h
  | boolv b => simpa [pyFloat, numVal] using h
  | str s => simp [pyFloat] at h

theorem ratFloor_le_self (q : ℚ) : ((Rat.floor q : ℤ) : ℚ) ≤ q :=
  Rat.le_floor.1 le_rfl

theorem ratFloor_le_of_le (q : ℚ) (z : ℤ) (h : q ≤ z) : Rat.floor q ≤ z := by
  by_contra hc
  push_neg at hc
  have hz1 : z + 1 ≤ Rat.floor q := Int.add_one_le_iff.2 hc
  have h1 : ((z + 1 : ℤ) : ℚ) ≤ q := Rat.le_floor.1 hz1
  have h2 : ((z : ℚ)) < ((z + 1 : ℤ) : ℚ) := by push_cast; linarith
  linarith [h1.trans h]

theorem roundHalfEven_le_of_le (q : ℚ) (z : ℤ) (h : q ≤ z) :
    roundHalfEven q ≤ z := by
  unfold roundHalfEven
  have hd : (Rat.divInt 1 2 : ℚ) = 1/2 := by
    rw [Rat.divInt_eq_div]
    norm_num
  have hfl : ((Rat.floor q : ℤ) : ℚ) ≤ q := ratFloor_le_self q
  have hfz : Rat.floor q ≤ z := ratFloor_le_of_le q z h
  by_cases h1 : q - (Rat.floor q : ℚ) < Rat.divInt 1 2
  · rw [if_pos h1]
    exact hfz
  · rw [if_neg h1]
    rw [hd] at h1
    push_neg at h1
    have hlt : ((Rat.floor q : ℤ) : ℚ) + 1/2 ≤ q := by linarith
    have : ((Rat.floor q : ℤ) : ℚ) < z := by
      have := hlt.trans h
      linarith
    have hstep : Rat.floor q + 1 ≤ z := by exact_mod_cast Int.add_one_le_iff.2 (by exact_mod_cast this)
    by_cases h2 : Rat.divInt 1 2 < q - (Rat.floor q : ℚ)
    · rw [if_pos h2]
      exact hstep
    · rw [if_neg h2]
      by_cases h3 : Rat.floor q % 2 = 0
      · rw [if_pos h3]
        exact hfz
      · rw [if_neg h3]
        exact hstep

theorem pyRound2_le_100 (q : ℚ) (h : q ≤ 100) : pyRound2 q ≤ 100 := by
  unfold pyRound2
  rw [Rat.divInt_eq_div]
  have h1 : roundHalfEven (q * 100) ≤ 10000 :=
    roundHalfEven_le_of_le (q * 100) 10000 (by push_cast; linarith)
  have h2 : ((roundHalfEven (q * 100) : ℤ) : ℚ) ≤ 10000 := by exact_mod_cast h1
  have h100 : ((100 : ℤ) : ℚ) = 100 := by norm_num
  rw [h100]
  linarith

/-- From a validated record, `prev_close` is positive (the validator requires
`5 <= prev_close <= 100000`). -/
theorem validate_prev_close_pos (stock : StockMap) (pc : ℚ)
    (hval : validate_real_stock_data stock = true)
    (hpc : pyFloat (mapGetD stock "prev_close" (.num 0)) = some pc) :
    0 < pc := by
  unfold validate_real_stock_data at hval
  simp only [Bool.and_eq_true, decide_eq_true_eq] at hval
  have h5 := hval.2.1.2
  rw [numVal_of_pyFloat _ _ hpc] at h5
  linarith [h5.1]

/-- The gate stage of `filter_stocks` for one record, in terms of the
extracted numeric fields: a record whose conversions succeed and whose
`prev_close` is positive is emitted exactly when all six filter conditions
hold, with `prev_close` substituted for a non-positive `prev_day_high`. -/
theorem processStock_isSome_iff (minPct : ℚ) (ts : String) (stock : StockMap)
    (o l pc pdh : ℚ) (vol : ℤ)
    (ho : pyFloat (mapGetD stock "open_price" (.num 0)) = some o)
    (hl : pyFloat (mapGetD stock "ltp" (.num 0)) = some l)
    (hpc : pyFloat (mapGetD stock "prev_close" (.num 0)) = some pc)
    (hpdh : pyFloat (mapGetD stock "prev_day_high" (.num 0)) = some pdh)
    (hvol : pyInt (mapGetD stock "volume" (.num 0)) = some vol)
    (hpcpos : 0 < pc) :
    (processStock minPct ts stock).isSome = true ↔
      ((if 0 < pdh then pdh else pc) < o ∧
       minPct ≤ (l - pc) / pc * 100 ∧
       1000 < vol ∧
       (10 ≤ l ∧ l ≤ 50000) ∧
       ((1:ℚ)/10 ≤ (o - (if 0 < pdh then pdh else pc)) /
            (if 0 < pdh then pdh else pc) * 100 ∧
        (o - (if 0 < pdh then pdh else pc)) /
            (if 0 < pdh then pdh else pc) * 100 ≤ 25) ∧
       (-50 ≤ (l - pc) / pc * 100 ∧ (l - pc) / pc * 100 ≤ 100)) := by
  have heff : (if pdh ≤ 0 then pc else pdh) = (if 0 < pdh then pdh else pc) := by
    rcases le_or_lt pdh 0 with h | h
    · rw [if_pos h, if_neg (not_lt.2 h)]
    · rw [if_neg (not_le.2 h), if_pos h]
  have heffpos : 0 < (if pdh ≤ 0 then pc else pdh) := by
    rcases le_or_lt pdh 0 with h | h
    · rw [if_pos h]; exact hpcpos
    · rw [if_neg (not_le.2 h)]; exact h
  have hdiv110 : (Rat.divInt 1 10 : ℚ) = 1/10 := by
    rw [Rat.divInt_eq_div]; norm_num
  unfold processStock
  rw [ho, hl, hpc, hpdh, hvol]
  dsimp only
  rw [if_neg (fun hcon => hcon.2 hpcpos), if_neg (not_not_intro hpcpos),
    if_pos heffpos]
  by_cases hC : (if pdh ≤ 0 then pc else pdh) < o ∧
      minPct ≤ pyDiv (l - pc) pc * 100 ∧
      1000 < vol ∧
      (10 ≤ l ∧ l ≤ 50000) ∧
      (Rat.divInt 1 10 ≤ pyDiv (o - if pdh ≤ 0 then pc else pdh)
          (if pdh ≤ 0 then pc else pdh) * 100 ∧
       pyDiv (o - if pdh ≤ 0 then pc else pdh)
          (if pdh ≤ 0 then pc else pdh) * 100 ≤ 25) ∧
      (-50 ≤ pyDiv (l - pc) pc * 100 ∧ pyDiv (l - pc) pc * 100 ≤ 100)
  · rw [if_pos hC]
    simp only [Option.isSome_some]
    refine iff_of_true trivial ?_
    rw [← heff, ← pyDiv_eq_div (l - pc) pc, ← pyDiv_eq_div (o - _) _,
      ← hdiv110]
    exact hC
  · rw [if_neg hC]
    simp only [Option.isSome_none]
    refine iff_of_false (by simp) (fun hR => hC ?_)
    rw [← heff, ← pyDiv_eq_div (l - pc) pc, ← pyDiv_eq_div (o - _) _,
      ← hdiv110] at hR
    exact hR

/-- A validated record used to instantiate the gate theorem: `prev_day_high`
is 0, so the `prev_close` fallback (100) is the effective previous-day high;
`open_price` 108 gives a gap of 8%.  (The validator demands a positive
number for `symbol`, so a validated record carries a numeric symbol.) -/
def c1Stock : StockMap := [("symbol", .num 1), ("open_price", .num 108),
  ("ltp", .num 112), ("prev_close", .num 100), ("prev_day_high", .num 0),
  ("volume", .num 5000), ("source", .str "nse_real")]

/-- C1: a validated record processed by `FilterAgent.filter_stocks` is
emitted as a Filtered Candidate iff all six gate conditions hold, where the
effective previous-day high is the record's `prev_day_high` when positive
and `prev_close` otherwise (both non-positive would skip the record, but a
validated record always has `prev_close > 0`): open above the effective
high; percentage change at least the configured minimum; volume above 1000;
`10 ≤ ltp ≤ 50000`; gap percentage in `[0.1, 25]`; change in `[-50, 100]`. -/
theorem c1_validated_emitted_iff_gates (minPct : ℚ) (ts : String)
    (stock : StockMap) (o l pc pdh : ℚ) (vol : ℤ)
    (hval : validate_real_stock_data stock = true)
    (ho : pyFloat (mapGetD stock "open_price" (.num 0)) = some o)
    (hl : pyFloat (mapGetD stock "ltp" (.num 0)) = some l)
    (hpc : pyFloat (mapGetD stock "prev_close" (.num 0)) = some pc)
    (hpdh : pyFloat (mapGetD stock "prev_day_high" (.num 0)) = some pdh)
    (hvol : pyInt (mapGetD stock "volume" (.num 0)) = some vol) :
    0 < pc ∧
    ((processStock minPct ts stock).isSome = true ↔
      ((if 0 < pdh then pdh else pc) < o ∧
       minPct ≤ (l - pc) / pc * 100 ∧
       1000 < vol ∧
       (10 ≤ l ∧ l ≤ 50000) ∧
       ((1:ℚ)/10 ≤ (o - (if 0 < pdh then pdh else pc)) /
            (if 0 < pdh then pdh else pc) * 100 ∧
        (o - (if 0 < pdh then pdh else pc)) /
            (if 0 < pdh then pdh else pc) * 100 ≤ 25) ∧
       (-50 ≤ (l - pc) / pc * 100 ∧ (l - pc) / pc * 100 ≤ 100))) := by
  have hpcpos := validate_prev_close_pos stock pc hval hpc
  exact ⟨hpcpos,
    processStock_isSome_iff minPct ts stock o l pc pdh vol
      ho hl hpc hpdh hvol hpcpos⟩

/-- Witness for C1: the theorem applied to `c1Stock` (prev_day_high 0,
prev_close 100, open 108): the fallback is substituted, the gap is 8%, and
the record is emitted. -/
theorem c1_validated_emitted_iff_gates_witness :
    validate_real_stock_data c1Stock = true ∧
    (processStock 7 "2025-01-01 09:30:00" c1Stock).isSome = true := by
  have hval : validate_real_stock_data c1Stock = true := by decide
  have h := c1_validated_emitted_iff_gates 7 "2025-01-01 09:30:00" c1Stock
    108 112 100 0 5000 hval rfl rfl rfl rfl (by decide)
  refine ⟨hval, h.2.mpr ?_⟩
  norm_num

theorem divInt_three_tenths : (Rat.divInt 3 10 : ℚ) = 3/10 := by
  rw [Rat.divInt_eq_div]; norm_num

theorem divInt_one_half : (Rat.divInt 1 2 : ℚ) = 1/2 := by
  rw [Rat.divInt_eq_div]; norm_num

/-- A record whose day-over-day ratio is 2.0 (a +100% move). -/
def c2Stock : StockMap := [("symbol", .num 1), ("open_price", .num 100),
  ("ltp", .num 200), ("prev_close", .num 100)]

/-- C2 counterexample: `FilterAgent._validate_real_stock_data` accepts
`c2Stock` although `|ltp/prev_close - 1| = 1 > 0.5` — the filter-stage
validator bounds the ratio by `[0.3, 3.0]`, not by the claimed 0.5 band. -/
theorem c2_counterexample :
    validate_real_stock_data c2Stock = true ∧
    numVal (mapGetD c2Stock "ltp" (.num 0)) = 200 ∧
    numVal (mapGetD c2Stock "prev_close" (.num 0)) = 100 ∧
    1/2 < |(200 : ℚ) / 100 - 1| := by
  refine ⟨by decide, rfl, rfl, by norm_num⟩

/-- C2 amended: both validators reject `ltp ≤ 0` and `prev_close ≤ 0`; the
per-source validator `RobustNSEScraper._validate_real_stock_data` rejects
whenever `|ltp/prev_close - 1| > 0.5`, while the filter-stage validator
`FilterAgent._validate_real_stock_data` rejects only when the ratio
`ltp/prev_close` leaves `[0.3, 3.0]`. -/
theorem c2_validators_bounds (stock : StockMap) (l pc : ℚ)
    (hl : mapGet stock "ltp" = some (.num l))
    (hpc : mapGet stock "prev_close" = some (.num pc)) :
    (l ≤ 0 → validate_real_stock_data stock = false ∧
             nse_validate_real_stock_data stock = false) ∧
    (pc ≤ 0 → validate_real_stock_data stock = false ∧
              nse_validate_real_stock_data stock = false) ∧
    (0 < pc → 1/2 < |l / pc - 1| → nse_validate_real_stock_data stock = false) ∧
    (0 < pc → (l / pc < 3/10 ∨ 3 < l / pc) →
      validate_real_stock_data stock = false) := by
  have hgl : mapGetD stock "ltp" (.num 0) = .num l := by
    rw [mapGetD, hl]; rfl
  have hgpc : mapGetD stock "prev_close" (.num 0) = .num pc := by
    rw [mapGetD, hpc]; rfl
  refine ⟨fun hle => ⟨?_, ?_⟩, fun hle => ⟨?_, ?_⟩, fun hpos hgt => ?_,
    fun hpos hband => ?_⟩
  · unfold validate_real_stock_data
    simp [hgl, isPositiveNumber, not_lt.2 hle]
  · unfold nse_validate_real_stock_data
    simp [hgl, isPositiveNumber, not_lt.2 hle]
  · unfold validate_real_stock_data
    simp [hgpc, isPositiveNumber, not_lt.2 hle]
  · unfold nse_validate_real_stock_data
    simp [hgpc, isPositiveNumber, not_lt.2 hle]
  · unfold nse_validate_real_stock_data
    rw [hgl, hgpc]
    have hratio : ¬ (pyAbs (pyDiv (l - pc) pc) ≤ Rat.divInt 1 2) := by
      rw [pyAbs_eq_abs, pyDiv_eq_div, divInt_one_half, sub_div,
        div_self (ne_of_gt hpos)]
      push_neg
      exact hgt
    simp only [numVal, if_pos hpos, decide_eq_false hratio, Bool.and_false]
  · unfold validate_real_stock_data
    rw [hgl, hgpc]
    have hband' : ¬ (Rat.divInt 3 10 ≤ pyDiv l pc ∧ pyDiv l pc ≤ 3) := by
      rw [pyDiv_eq_div, divInt_three_tenths]
      rcases hband with h | h
      · exact fun hb => absurd hb.1 (not_le.2 h)
      · exact fun hb => absurd hb.2 (not_le.2 h)
    simp only [numVal, if_pos hpos, decide_eq_false hband', Bool.and_false]

/-- Witness for C2's amended theorem: the NSE validator rejects the
ratio-2.0 record. -/
theorem c2_validators_bounds_witness :
    nse_validate_real_stock_data c2Stock = false :=
  (c2_validators_bounds c2Stock 200 100 rfl rfl).2.2.1 (by norm_num)
    (by norm_num)

theorem mem_of_mapGet (m : StockMap) (k : String) (v : Value)
    (h : mapGet m k = some v) : (k, v) ∈ m := by
  induction m with
  | nil => simp [mapGet] at h
  | cons hd tl ih =>
    obtain ⟨k', w⟩ := hd
    by_cases hk : k' = k
    · subst hk
      simp only [mapGet, eq_self_iff_true, if_true, Option.some.injEq] at h
      subst h
      exact List.mem_cons_self _ _
    · simp only [mapGet, if_neg hk] at h
      exact List.mem_cons_of_mem _ (ih h)

theorem mapGet_ne_none_of_mem (m : StockMap) (k : String) (v : Value)
    (h : (k, v) ∈ m) : mapGet m k ≠ none := by
  induction m with
  | nil => simp at h
  | cons hd tl ih =>
    obtain ⟨k', w⟩ := hd
    rcases List.mem_cons.1 h with heq | htl
    · obtain ⟨h1, h2⟩ := Prod.mk.injEq .. ▸ heq.symm
      simp [mapGet, h1.symm]
    · by_cases hk : k' = k
      · simp [mapGet, hk]
      · simpa [mapGet, hk] using ih htl

theorem pyTruthy_false_of_zero (v : Value) (ht : isNumType v = true)
    (hz : numVal v = 0) : pyTruthy v = false := by
  cases v with
  | num q =>
    simp only [numVal] at hz
    simp [pyTruthy, hz]
  | boolv b =>
    cases b with
    | false => rfl
    | true => simp [numVal] at hz
  | str s => simp [isNumType] at ht

/-- C3: the per-symbol merge resolution of `DataAgent._merge_duplicate_stocks`
(existing record first, incoming second): the `source` field becomes the
existing tag list with the incoming tag appended only when not already
present (the existing tag is never overwritten); a non-zero numeric incoming
value always replaces the existing value; a zero numeric incoming value
leaves the field unchanged; a non-numeric incoming value replaces the
existing value only when the existing value is absent/falsy and the incoming
value truthy; fields absent from the incoming record are unchanged. -/
theorem c3_merge_field_resolution (e n m : StockMap)
    (hn : (n.map Prod.fst).Nodup)
    (hm : merge_duplicate_pair e n = some m) :
    (∀ s v, mapGet e "source" = some (.str s) →
      mapGet n "source" = some (.str v) →
      mapGet m "source" =
        some (.str (if v ∈ strSplitComma s then s else s ++ "," ++ v))) ∧
    (∀ k v, k ≠ "source" → mapGet n k = some v → isNumType v = true →
      numVal v ≠ 0 → mapGet m k = some v) ∧
    (∀ k v, k ≠ "source" → mapGet n k = some v → isNumType v = true →
      numVal v = 0 → mapGet m k = mapGet e k) ∧
    (∀ k v, k ≠ "source" → mapGet n k = some v → isNumType v = false →
      mapGet m k = (if pyTruthyOpt (mapGet e k) = false ∧ pyTruthy v = true
        then some v else mapGet e k)) ∧
    (∀ k, mapGet n k = none → mapGet m k = mapGet e k) := by
  refine ⟨?_, ?_, ?_, ?_, ?_⟩
  · intro s v hse hsn
    obtain ⟨e₁, m₂, he₁, hstep, hm₂⟩ :=
      merge_lookup e n m "source" (.str v) hn (mem_of_mapGet _ _ _ hsn) hm
    unfold mergeStep at hstep
    rw [if_pos rfl] at hstep
    have hgd : mapGetD e₁ "source" (.str "") = .str s := by
      rw [mapGetD, he₁, hse]
      rfl
    rw [hgd] at hstep
    dsimp only at hstep
    by_cases hmem2 : v ∈ strSplitComma s
    · rw [if_pos hmem2] at hstep
      injection hstep with h
      rw [hm₂, ← h, he₁, hse, if_pos hmem2]
    · rw [if_neg hmem2] at hstep
      injection hstep with h
      rw [hm₂, ← h, mapGet_mapSet_self, if_neg hmem2]
  · intro k v hk hv htype hnz
    obtain ⟨e₁, m₂, he₁, hstep, hm₂⟩ :=
      merge_lookup e n m k v hn (mem_of_mapGet _ _ _ hv) hm
    unfold mergeStep at hstep
    rw [if_neg hk] at hstep
    rw [if_pos (by simp [htype, hnz])] at hstep
    injection hstep with h
    rw [hm₂, ← h, mapGet_mapSet_self]
  · intro k v hk hv htype hz
    obtain ⟨e₁, m₂, he₁, hstep, hm₂⟩ :=
      merge_lookup e n m k v hn (mem_of_mapGet _ _ _ hv) hm
    unfold mergeStep at hstep
    rw [if_neg hk] at hstep
    rw [if_neg (by simp [hz])] at hstep
    rw [if_neg (by simp [pyTruthy_false_of_zero v htype hz])] at hstep
    injection hstep with h
    rw [hm₂, ← h, he₁]
  · intro k v hk hv htype
    obtain ⟨e₁, m₂, he₁, hstep, hm₂⟩ :=
      merge_lookup e n m k v hn (mem_of_mapGet _ _ _ hv) hm
    unfold mergeStep at hstep
    rw [if_neg hk] at hstep
    rw [if_neg (by simp [htype])] at hstep
    rw [he₁] at hstep
    by_cases hcond : pyTruthyOpt (mapGet e k) = false ∧ pyTruthy v = true
    · rw [if_pos (by simp [hcond.1, hcond.2])] at hstep
      injection hstep with h
      rw [hm₂, ← h, mapGet_mapSet_self, if_pos hcond]
    · rw [if_neg (by
        simp only [Bool.and_eq_true, Bool.not_eq_true']
        exact fun hb => hcond ⟨hb.1, hb.2⟩)] at hstep
      injection hstep with h
      rw [hm₂, ← h, he₁, if_neg hcond]
  · intro k hnone
    refine mergeFold_preserve e m n k ?_ hm
    intro kv hkv heq
    exact mapGet_ne_none_of_mem n k kv.2 (by rw [heq]; exact hkv) hnone

def c3Existing : StockMap := [("symbol", .str "XYZ"), ("total_oi", .num 0),
  ("source", .str "scrapeA")]

def c3Incoming : StockMap := [("symbol", .str "XYZ"), ("total_oi", .num 5000),
  ("source", .str "toolkitB")]

/-- Witness for C3 (Scenario 3): merging `{total_oi: 0, source: "scrapeA"}`
with `{total_oi: 5000, source: "toolkitB"}` yields `total_oi = 5000` and
`source = "scrapeA,toolkitB"`. -/
theorem c3_merge_field_resolution_witness :
    mapGet ((merge_duplicate_pair c3Existing c3Incoming).getD []) "total_oi" =
      some (.num 5000) ∧
    mapGet ((merge_duplicate_pair c3Existing c3Incoming).getD []) "source" =
      some (.str "scrapeA,toolkitB") := by
  have hm : merge_duplicate_pair c3Existing c3Incoming =
      some ((merge_duplicate_pair c3Existing c3Incoming).getD []) := by decide
  have h := c3_merge_field_resolution c3Existing c3Incoming _ (by decide) hm
  constructor
  · exact h.2.1 "total_oi" (.num 5000) (by decide) (by decide) rfl
      (by norm_num [numVal])
  · rw [h.1 "scrapeA" "toolkitB" rfl rfl, if_neg (by decide)]
    rfl

theorem splitCommaAux_no_comma (l : List Char) (acc : List Char)
    (h : ∀ c ∈ l, c ≠ ',') :
    splitCommaAux l acc = [⟨acc.reverse ++ l⟩] := by
  induction l generalizing acc with
  | nil => simp [splitCommaAux]
  | cons c cs ih =>
    have hc : c ≠ ',' := h c (List.mem_cons_self _ _)
    rw [splitCommaAux, if_neg hc,
      ih _ (fun d hd => h d (List.mem_cons_of_mem _ hd))]
    simp

theorem strSplitComma_no_comma (s : String) (h : ∀ c ∈ s.data, c ≠ ',') :
    strSplitComma s = [s] := by
  rw [strSplitComma, splitCommaAux_no_comma _ _ h]
  cases s
  simp

theorem mergeStep_self (x : StockMap) (hn : (x.map Prod.fst).Nodup)
    (hsrc : ∀ v, mapGet x "source" = some v →
      ∃ s, v = .str s ∧ ∀ c ∈ s.data, c ≠ ',')
    (kv : String × Value) (hkv : kv ∈ x) :
    mergeStep x kv = some x := by
  obtain ⟨k, v⟩ := kv
  have hget : mapGet x k = some v := mapGet_eq_of_mem_nodup x k v hn hkv
  unfold mergeStep
  by_cases hk : k = "source"
  · subst hk
    rw [if_pos rfl]
    obtain ⟨s, rfl, hnc⟩ := hsrc v hget
    have hgd : mapGetD x "source" (.str "") = .str s := by
      rw [mapGetD, hget]
      rfl
    rw [hgd]
    dsimp only
    rw [if_pos (by rw [strSplitComma_no_comma s hnc]; exact List.mem_singleton.2 rfl)]
  · rw [if_neg hk]
    by_cases h1 : (isNumType v && decide (numVal v ≠ 0)) = true
    · rw [if_pos h1, mapSet_eq_self x k v hget]
    · rw [if_neg h1]
      have hto : pyTruthyOpt (mapGet x k) = pyTruthy v := by
        rw [hget]
        rfl
      rw [if_neg (by rw [hto]; cases pyTruthy v <;> simp)]

/-- C4 amended: merging a record with itself is a no-op, provided the
record's keys are unique (a Python dict guarantee) and its source tag, when
present, is a single string tag without a comma.  The output equals the
input exactly, with the source neither doubled nor altered. -/
theorem c4_merge_self (x : StockMap) (hn : (x.map Prod.fst).Nodup)
    (hsrc : ∀ v, mapGet x "source" = some v →
      ∃ s, v = .str s ∧ ∀ c ∈ s.data, c ≠ ',') :
    merge_duplicate_pair x x = some x := by
  have key : ∀ l : List (String × Value), (∀ kv ∈ l, kv ∈ x) →
      l.foldl (fun acc kv => acc.bind (fun m => mergeStep m kv)) (some x) =
        some x := by
    intro l hl
    induction l with
    | nil => rfl
    | cons hd tl ih =>
      rw [List.foldl_cons]
      simp only [Option.some_bind]
      rw [mergeStep_self x hn hsrc hd (hl hd (List.mem_cons_self _ _))]
      exact ih (fun kv hkv => hl kv (List.mem_cons_of_mem _ hkv))
  exact key x (fun kv h => h)

/-- A record whose accumulated source tag already joins two provenances. -/
def c4Stock : StockMap := [("symbol", .str "XYZ"), ("source", .str "a,b")]

/-- C4 counterexample: merging `c4Stock` with itself doubles the
comma-joined source tag to `"a,b,a,b"` instead of leaving it `"a,b"`, so
`merge(x, x)` is not a no-op for every record. -/
theorem c4_counterexample :
    merge_duplicate_pair c4Stock c4Stock =
      some [("symbol", .str "XYZ"), ("source", .str "a,b,a,b")] ∧
    mapGet c4Stock "source" = some (.str "a,b") ∧
    Value.str "a,b,a,b" ≠ Value.str "a,b" := by
  exact ⟨by decide, rfl, by decide⟩

/-- A record carrying a single source tag. -/
def c4SingleTag : StockMap := [("symbol", .str "XYZ"),
  ("total_oi", .num 5000), ("source", .str "scrapeA")]

/-- Witness for C4's amended theorem: a single-tag record merged with
itself is returned unchanged (source stays `"scrapeA"`). -/
theorem c4_merge_self_witness :
    merge_duplicate_pair c4SingleTag c4SingleTag = some c4SingleTag := by
  apply c4_merge_self
  · decide
  · intro v hv
    have h2 : some (Value.str "scrapeA") = some v :=
      (rfl : mapGet c4SingleTag "source" = some (Value.str "scrapeA")).symm.trans hv
    injection h2 with h3
    exact ⟨"scrapeA", h3.symm, by decide⟩

/-- C5: `FilterAgent._calculate_filter_score` is a pure function of the
record's volume and open-interest fields and the two percentage arguments —
the same inputs always give the same score — bounded above by 100, and,
whenever the volume and OI fields are numeric, equal to
`min(gap*2, 40) + min(change*2, 40)` plus the stepped 10/7/5/2/0 volume
points plus 10 OI points when `total_oi > 0`, rounded to two decimals. -/
theorem c5_filter_score_bounded (stock : StockMap) (g c : ℚ) :
    calculate_filter_score stock g c ≤ 100 ∧
    (∀ v oi, numOpt (mapGetD stock "volume" (.num 0)) = some v →
      numOpt (mapGetD stock "total_oi" (.num 0)) = some oi →
      calculate_filter_score stock g c =
        pyRound2 (min (g * 2) 40 + min (c * 2) 40 +
          (if 100000 < v then 10 else if 50000 < v then 7
           else if 10000 < v then 5 else if 1000 < v then 2 else 0) +
          (if 0 < oi then 10 else 0))) := by
  unfold calculate_filter_score
  cases hv : numOpt (mapGetD stock "volume" (.num 0)) with
  | none =>
    dsimp only
    exact ⟨by norm_num,
      fun v oi hv' hoi' => Option.noConfusion hv'⟩
  | some v =>
    cases hoi : numOpt (mapGetD stock "total_oi" (.num 0)) with
    | none =>
      dsimp only
      exact ⟨by norm_num,
        fun v' oi hv' hoi' => Option.noConfusion hoi'⟩
    | some oi =>
      dsimp only
      constructor
      · apply pyRound2_le_100
        have h1 : pyMin (g * 2) 40 ≤ 40 := by
          rw [pyMin_eq_min]
          exact min_le_right _ _
        have h2 : pyMin (c * 2) 40 ≤ 40 := by
          rw [pyMin_eq_min]
          exact min_le_right _ _
        have h3 : (if 100000 < v then (10:ℚ) else if 50000 < v then 7
            else if 10000 < v then 5 else if 1000 < v then 2 else 0) ≤ 10 := by
          split_ifs <;> norm_num
        have h4 : (if 0 < oi then (10:ℚ) else 0) ≤ 10 := by
          split_ifs <;> norm_num
        linarith
      · intro v' oi' hv' hoi'
        obtain rfl : v = v' := by injection hv'
        obtain rfl : oi = oi' := by injection hoi'
        rw [pyMin_eq_min, pyMin_eq_min]

/-- A record with high volume and positive open interest. -/
def c5Stock : StockMap := [("volume", .num 200000), ("total_oi", .num 10)]

/-- Witness for C5: the score of `c5Stock` at gap 30 and change 50 is the
rounded capped sum `40 + 40 + 10 + 10 = 100`, and is bounded by 100. -/
theorem c5_filter_score_bounded_witness :
    calculate_filter_score c5Stock 30 50 ≤ 100 ∧
    calculate_filter_score c5Stock 30 50 =
      pyRound2 (min ((30:ℚ) * 2) 40 + min ((50:ℚ) * 2) 40 + 10 + 10) := by
  have h := c5_filter_score_bounded c5Stock 30 50
  refine ⟨h.1, ?_⟩
  rw [h.2 200000 10 rfl rfl]
  norm_num

/-- The Scenario-1 record of the spec. -/
def c6Stock : StockMap := [("symbol", .str "ABC"), ("open_price", .num 110),
  ("ltp", .num 112), ("prev_close", .num 100), ("prev_day_high", .num 105),
  ("volume", .num 5000), ("total_oi", .num 0)]

set_option maxRecDepth 8000 in
/-- C6 counterexample: the pipeline does not emit the Scenario-1 record as a
candidate — `FilterAgent._validate_real_stock_data` rejects it outright
because the string symbol `"ABC"` fails the numeric required-field check, so
`filter_stocks` returns the empty list.  Independently, the predicted score
is wrong: at gap `100/21` (≈4.76%) and change 12%, the computed score is
`3552/100 = 35.52`, not `3852/100 = 38.52` — volume 5000 earns 2 points,
not 5 (the 5-point band needs volume above 10000). -/
theorem c6_counterexample :
    validate_real_stock_data c6Stock = false ∧
    filter_stocks 7 "2025-01-01 09:30:00" [c6Stock] = [] ∧
    calculate_filter_score c6Stock (Rat.divInt 100 21) 12 =
      Rat.divInt 3552 100 ∧
    (Rat.divInt 3552 100 : ℚ) ≠ Rat.divInt 3852 100 := by
  refine ⟨by decide, by decide, by with_unfolding_all decide, by decide⟩

set_option maxRecDepth 8000 in
/-- C6 amended: the gate stage itself passes the Scenario-1 record
(gap `100/21` ≈ 4.76% lies inside [0.1, 25], change 12% meets the 7%
threshold), and the emitted candidate carries `percentage_change = 12`,
`gap_up_percentage = 4.76` and `filter_score = 35.52`
(= 9.52 + 24 + 2 + 0, the volume term contributing 2 points for volume
5000); the record only fails to appear end-to-end because the validator
rejects its string symbol. -/
theorem c6_gate_and_score :
    (processStock 7 "2025-01-01 09:30:00" c6Stock).isSome = true ∧
    mapGet ((processStock 7 "2025-01-01 09:30:00" c6Stock).getD [])
      "filter_score" = some (.num (Rat.divInt 3552 100)) ∧
    mapGet ((processStock 7 "2025-01-01 09:30:00" c6Stock).getD [])
      "percentage_change" = some (.num 12) ∧
    mapGet ((processStock 7 "2025-01-01 09:30:00" c6Stock).getD [])
      "gap_up_percentage" = some (.num (Rat.divInt 476 100)) := by
  refine ⟨by with_unfolding_all decide, ?_, ?_, ?_⟩ <;>
    with_unfolding_all decide

/-- C7: the fixed-ratio estimate paths are not distinguishable by source
tag.  `RobustNSEScraper._parse_quote_equity_data` emits
`source = "nse_quote_equity_real"` with `prev_day_high = prev_close` (the
substitute for the failed historical call) — exactly the tag it emits when
the historical call succeeded; likewise
`NSESproutsClient._parse_comprehensive_data` emits
`source = "nse_preopen_comprehensive"` with
`prev_day_high = prev_close * 1.01` on its estimate path and the same tag
on its sourced path. -/
theorem c7_estimates_share_source_tag (symbol : String)
    (ltp o pc dh dl perChange : ℚ) (vol : ℤ) (h : HistOHLC)
    (fo : Option (ℤ × ℤ)) :
    (mapGet (parse_quote_equity_data symbol ltp o pc dh dl vol none fo)
        "source" =
      mapGet (parse_quote_equity_data symbol ltp o pc dh dl vol (some h) fo)
        "source" ∧
     mapGet (parse_quote_equity_data symbol ltp o pc dh dl vol none fo)
        "prev_day_high" = some (.num pc)) ∧
    (mapGet (parse_comprehensive_data symbol ltp pc dh dl perChange vol none)
        "source" =
      mapGet (parse_comprehensive_data symbol ltp pc dh dl perChange vol
          (some h)) "source" ∧
     mapGet (parse_comprehensive_data symbol ltp pc dh dl perChange vol none)
        "prev_day_high" = some (.num (pc * Rat.divInt 101 100))) := by
  rcases fo with _ | ⟨oi, coi⟩ <;> exact ⟨⟨rfl, rfl⟩, rfl, rfl⟩

/-- C8: a record whose source tag contains a synthetic/generated/fake
marker is rejected by `FilterAgent._validate_real_stock_data`
unconditionally, whatever its other fields hold, and `filter_stocks` drops
it wherever it appears in its input, so it can never become a Filtered
Candidate. -/
theorem c8_synthetic_source_rejected (stock : StockMap) (s : String)
    (hs : mapGet stock "source" = some (.str s))
    (hmark : strContains (strLower s) "synthetic" = true ∨
             strContains (strLower s) "fake" = true ∨
             strContains (strLower s) "generated" = true) :
    validate_real_stock_data stock = false ∧
    ∀ minPct ts l₁ l₂,
      filter_stocks minPct ts (l₁ ++ stock :: l₂) =
        filter_stocks minPct ts (l₁ ++ l₂) := by
  have hgd : mapGetD stock "source" (.str "") = .str s := by
    rw [mapGetD, hs]
    rfl
  have hval : validate_real_stock_data stock = false := by
    unfold validate_real_stock_data
    rw [hgd]
    dsimp only
    rcases hmark with h | h | h <;> simp [h]
  refine ⟨hval, fun minPct ts l₁ l₂ => ?_⟩
  unfold filter_stocks
  rw [List.filter_append, List.filter_append]
  congr 1
  congr 1
  rw [List.filter_cons]
  simp [hval]

/-- A record with plausible numbers but a synthetic source tag. -/
def c8Stock : StockMap := [("symbol", .num 1), ("open_price", .num 108),
  ("ltp", .num 112), ("prev_close", .num 100), ("volume", .num 5000),
  ("source", .str "synthetic_fill")]

/-- Witness for C8 (Scenario 4): the `source = "synthetic_fill"` record is
rejected and filtered out. -/
theorem c8_synthetic_source_rejected_witness :
    validate_real_stock_data c8Stock = false ∧
    filter_stocks 7 "2025-01-01 09:30:00" [c8Stock] = [] := by
  have h := c8_synthetic_source_rejected c8Stock "synthetic_fill" rfl
    (Or.inl (by decide))
  refine ⟨h.1, ?_⟩
  have h2 := h.2 7 "2025-01-01 09:30:00" [] []
  simpa [filter_stocks] using h2

/-- C9: the volume gate of `filter_stocks` is invariant under
`update_filter_criteria`: two updates differing only in `volume_threshold`
yield agents whose `filter_stocks` agree on every input (the stored
threshold is never consulted), and after any update a validated record
whose five other gates hold is admitted exactly when its volume exceeds
the hard-coded 1000. -/
theorem c9_volume_threshold_never_consulted (s : FilterAgentState)
    (mp : Option ℚ) (vt vt' : Option ℤ) (ts : String)
    (data : List StockMap) (stock : StockMap) (o l pc pdh : ℚ) (vol : ℤ)
    (hval : validate_real_stock_data stock = true)
    (ho : pyFloat (mapGetD stock "open_price" (.num 0)) = some o)
    (hl : pyFloat (mapGetD stock "ltp" (.num 0)) = some l)
    (hpc : pyFloat (mapGetD stock "prev_close" (.num 0)) = some pc)
    (hpdh : pyFloat (mapGetD stock "prev_day_high" (.num 0)) = some pdh)
    (hvol : pyInt (mapGetD stock "volume" (.num 0)) = some vol)
    (hothers :
      (if 0 < pdh then pdh else pc) < o ∧
      (update_filter_criteria s mp vt).min_percentage_increase ≤
        (l - pc) / pc * 100 ∧
      (10 ≤ l ∧ l ≤ 50000) ∧
      ((1:ℚ)/10 ≤ (o - (if 0 < pdh then pdh else pc)) /
          (if 0 < pdh then pdh else pc) * 100 ∧
       (o - (if 0 < pdh then pdh else pc)) /
          (if 0 < pdh then pdh else pc) * 100 ≤ 25) ∧
      (-50 ≤ (l - pc) / pc * 100 ∧ (l - pc) / pc * 100 ≤ 100)) :
    filter_stocks_state (update_filter_criteria s mp vt) ts data =
      filter_stocks_state (update_filter_criteria s mp vt') ts data ∧
    ((processStock (update_filter_criteria s mp vt).min_percentage_increase
        ts stock).isSome = true ↔ 1000 < vol) := by
  have hmin : (update_filter_criteria s mp vt).min_percentage_increase =
      (update_filter_criteria s mp vt').min_percentage_increase := by
    cases mp <;> cases vt <;> cases vt' <;> rfl
  have hpcpos := validate_prev_close_pos stock pc hval hpc
  have hiff := processStock_isSome_iff
    (update_filter_criteria s mp vt).min_percentage_increase ts stock
    o l pc pdh vol ho hl hpc hpdh hvol hpcpos
  constructor
  · unfold filter_stocks_state
    rw [hmin]
  · rw [hiff]
    constructor
    · intro h6
      exact h6.2.2.1
    · intro hv1000
      exact ⟨hothers.1, hothers.2.1, hv1000, hothers.2.2.1,
        hothers.2.2.2.1, hothers.2.2.2.2⟩

/-- A validated record passing every gate except possibly volume. -/
def c9Stock : StockMap := [("symbol", .num 1), ("open_price", .num 110),
  ("ltp", .num 112), ("prev_close", .num 100), ("prev_day_high", .num 105),
  ("volume", .num 5000), ("source", .str "nsetools_real")]

/-- Witness for C9: after an update storing `volume_threshold = 99999`,
the record with volume 5000 is still admitted (5000 > 1000; the stored
threshold is ignored). -/
theorem c9_volume_threshold_never_consulted_witness :
    (processStock (update_filter_criteria ⟨7, none⟩ (some 7)
        (some 99999)).min_percentage_increase "2025-01-01 09:30:00"
      c9Stock).isSome = true := by
  have h := c9_volume_threshold_never_consulted ⟨7, none⟩ (some 7)
    (some 99999) (some 5) "2025-01-01 09:30:00" [] c9Stock 110 112 100 105
    5000 (by decide) rfl rfl rfl rfl (by decide)
    (by norm_num [update_filter_criteria])
  exact h.2.mpr (by norm_num)

/-- The nine keys `filter_stocks` adds or overwrites on an emitted record. -/
def derivedKeys : List String := ["percentage_change", "gap_up_percentage",
  "day_change", "day_change_percentage", "gap_up_condition",
  "momentum_condition", "filter_timestamp", "data_quality", "filter_score"]

theorem mapGet_mapUpdate_of_not_mem (m : StockMap)
    (kvs : List (String × Value)) (k : String)
    (h : ∀ kv ∈ kvs, k ≠ kv.1) :
    mapGet (mapUpdate m kvs) k = mapGet m k := by
  induction kvs generalizing m with
  | nil => rfl
  | cons hd tl ih =>
    rw [mapUpdate, List.foldl_cons]
    rw [show List.foldl (fun acc kv => mapSet acc kv.1 kv.2)
        (mapSet m hd.1 hd.2) tl = mapUpdate (mapSet m hd.1 hd.2) tl from rfl]
    rw [ih _ (fun kv hkv => h kv (List.mem_cons_of_mem _ hkv))]
    exact mapGet_mapSet_ne _ _ _ _ (h hd (List.mem_cons_self _ _))

/-- C10: an emitted Filtered Candidate agrees with the input record on
every key outside the nine derived keys; in particular the original
`prev_day_high` value survives even when the `prev_close` fallback was
substituted during gating. -/
theorem c10_frame (minPct : ℚ) (ts : String) (stock out : StockMap)
    (hm : processStock minPct ts stock = some out)
    (k : String) (hk : k ∉ derivedKeys) :
    mapGet out k = mapGet stock k := by
  unfold processStock at hm
  repeat' first
    | exact Option.noConfusion hm
    | split at hm
    | dsimp only at hm
  all_goals (
    injection hm with h
    subst h
    refine mapGet_mapUpdate_of_not_mem _ _ _ ?_
    intro kv hkv
    simp only [derivedKeys, List.mem_cons, List.not_mem_nil, or_false] at hk
    push_neg at hk
    obtain ⟨h1, h2, h3, h4, h5, h6, h7, h8, h9⟩ := hk
    simp only [List.mem_cons, List.not_mem_nil, or_false] at hkv
    rcases hkv with rfl | rfl | rfl | rfl | rfl | rfl | rfl | rfl | rfl <;>
      simp_all)

/-- A record with `prev_day_high = 0` that passes every gate via the
`prev_close` fallback. -/
def c10Stock : StockMap := [("symbol", .num 1), ("open_price", .num 108),
  ("ltp", .num 112), ("prev_close", .num 100), ("prev_day_high", .num 0),
  ("volume", .num 5000), ("source", .str "nse_real")]

/-- Witness for C10: the emitted candidate still carries the original
`prev_day_high = 0`, not the substituted fallback value 100. -/
theorem c10_frame_witness :
    mapGet ((processStock 7 "2025-01-01 09:30:00" c10Stock).getD [])
      "prev_day_high" = some (.num 0) := by
  have hs : (processStock 7 "2025-01-01 09:30:00" c10Stock).isSome = true := by
    with_unfolding_all decide
  obtain ⟨out, hout⟩ := Option.isSome_iff_exists.1 hs
  have h := c10_frame 7 "2025-01-01 09:30:00" c10Stock out hout
    "prev_day_high" (by decide)
  rw [hout]
  simp only [Option.getD_some]
  rw [h]
  rfl
